import Mathlib

/-!
# The epoll event loop of `src/epoll-handler.cpp`

A shallow embedding of the class `epoll_handler`: its constructor, its
destructor, `register_event`, `listen_loop` and `finish`.

What lies outside the class is made explicit:

* the operating system answers through oracles: whether `calloc` obtained
  the memory, the value returned by `epoll_create1`, the value returned by
  `epoll_ctl`, and, for every wait cycle, what `epoll_wait` returned; every
  `close` call is appended to a log;
* the descriptor handles live in a heap indexed by handle identity; a
  `weak_ptr` is empty or names a handle, and it is expired when the handle it
  names has been destroyed;
* a callback is client code: it is named by a number and a semantics function
  says what invoking it does to the world, and whether it returns or throws.
  Every invocation made by `listen_loop` is appended to an invocation log.

The messages written to `std::cout` and `std::cerr` are not modelled.
-/

namespace EpollHandler

/-! ## Data model -/

/-- The record `struct epoll_event`: the readiness bit mask `events` and the
descriptor number `data.fd`. -/
structure epoll_event where
  events : Nat
  fd : Int
deriving DecidableEq

/-- Modelled from the spec: the descriptor handle class `fd_handler`, whose
header is not among the sources. It exposes its raw descriptor number
(`get_fd`), its interest mask (`get_events`) and a writable callback slot
(`callback`). The slot holds the name of a callback; an empty `std::function`
is a callback whose invocation throws. -/
structure fd_handler where
  fd : Int
  events : Nat
  callback : Nat
deriving DecidableEq

/-- The accessor `fd_handler::get_fd`. -/
def fd_handler.get_fd (h : fd_handler) : Int := h.fd

/-- The accessor `fd_handler::get_events`. -/
def fd_handler.get_events (h : fd_handler) : Nat := h.events

/-- A `std::weak_ptr<fd_handler>`: empty (default constructed) or a
non-owning reference to the handle with the given identity. -/
inductive weak_ptr where
  | empty
  | ref (h : Nat)
deriving DecidableEq

/-- The handles of the program, by identity: `some obj` while the handle is
alive, `none` once it has been destroyed. -/
abbrev Heap := List (Option fd_handler)

/-- The live object behind a handle identity, if any. -/
def deref (heap : Heap) (h : Nat) : Option fd_handler :=
  match heap[h]? with
  | some (some obj) => some obj
  | _ => none

/-- The test `weak_ptr::expired`. -/
def expired (heap : Heap) (p : weak_ptr) : Bool :=
  match p with
  | .empty => true
  | .ref h => (deref heap h).isNone

/-- The call `weak_ptr::lock`: the owning pointer, null (`none`) when the
reference is expired. -/
def lock (heap : Heap) (p : weak_ptr) : Option Nat :=
  match p with
  | .empty => none
  | .ref h => if (deref heap h).isSome then some h else none

/-- The member `data`, a `std::map<int, std::weak_ptr<fd_handler>>`, as an
association list. -/
abbrev Table := List (Int × weak_ptr)

/-- The lookup `std::map::find`: the mapped value, `none` for `end ()`. -/
def map_find : Table → Int → Option weak_ptr
  | [], _ => none
  | (k', v) :: t, k => if k' = k then some v else map_find t k

/-- The call `std::map::insert`: adds the pair unless the key is present. -/
def map_insert (t : Table) (k : Int) (v : weak_ptr) : Table :=
  match map_find t k with
  | some _ => t
  | none => t ++ [(k, v)]

/-- The access `std::map::operator[]`: the table, in which the key is
present afterwards (a missing key is added with a default constructed, empty
`weak_ptr`), and the value stored under the key. -/
def map_at (t : Table) (k : Int) : Table × weak_ptr :=
  match map_find t k with
  | some v => (t, v)
  | none => (t ++ [(k, weak_ptr.empty)], weak_ptr.empty)

/-- Overwrites the value stored under the first occurrence of a key. -/
def map_store : Table → Int → weak_ptr → Table
  | [], _, _ => []
  | (k', v') :: t, k, v => if k' = k then (k', v) :: t else (k', v') :: map_store t k v

/-- The assignment `data[k] = v`: `operator[]` followed by a store through
the reference it returns. -/
def map_assign (t : Table) (k : Int) (v : weak_ptr) : Table :=
  map_store (map_at t k).1 k v

/-- The number of entries of the table that carry the key. -/
def map_count (t : Table) (k : Int) : Nat :=
  (t.filter (fun e => decide (e.1 = k))).length

/-- The members of the class `epoll_handler`. -/
structure epoll_handler where
  finish_flag : Bool
  max_events : Int
  event_check : Int
  events : List epoll_event
  efd : Int
  data : Table
  event_list : List epoll_event
deriving DecidableEq

/-- The loop object together with what surrounds it: the handles and the log
of the descriptor numbers passed to `close`, oldest first. -/
structure World where
  loop : epoll_handler
  heap : Heap
  closed : List Int
deriving DecidableEq

/-! ## Construction and destruction -/

/-- The size of `size_t`. -/
def SIZE_MAX_plus_one : Nat := 2 ^ 64

/-- The value of `sizeof (struct epoll_event)`. -/
def sizeof_epoll_event : Nat := 12

/-- The allocation `calloc (max_events, sizeof (struct epoll_event))`: the
`int` count is converted to `size_t`; `alloc_ok` says whether the allocator
obtained the memory. A request whose byte size does not fit in `size_t`, and
a request the allocator cannot serve, return the null pointer, which is a
buffer without any slot; every other request yields that many zeroed slots.
The constructor does not test the pointer. -/
def calloc_events (alloc_ok : Bool) (max_events : Int) : List epoll_event :=
  let nmemb : Nat := (max_events % (SIZE_MAX_plus_one : Int)).toNat
  if nmemb * sizeof_epoll_event < SIZE_MAX_plus_one ∧ alloc_ok = true then
    List.replicate nmemb { events := 0, fd := 0 }
  else []

/-- The error a constructor could raise. -/
inductive InitializationError where
  | init_failed
deriving DecidableEq

/-- The constructor `epoll_handler::epoll_handler (max_events, event_check)`;
`alloc_ok` says whether `calloc` obtained the memory and `efd_ret` is what
`epoll_create1 (0)` returned (`-1` on failure). The body has no failing
path. -/
def epoll_handler.construct (max_events event_check : Int) (alloc_ok : Bool) (efd_ret : Int) :
    Except InitializationError epoll_handler :=
  .ok { finish_flag := false
        max_events := max_events
        event_check := event_check
        events := calloc_events alloc_ok max_events
        efd := efd_ret
        data := []
        event_list := [] }

/-- The destructor `epoll_handler::~epoll_handler`, whose body is empty. -/
def epoll_handler.destroy (w : World) : World := w

/-! ## Registration -/

/-- Stores a callback in the slot of a live handle. -/
def set_callback (heap : Heap) (h : Nat) (cb : Nat) : Heap :=
  match deref heap h with
  | some obj => heap.set h (some { obj with callback := cb })
  | none => heap

/-- The method `epoll_handler::register_event (fd, cb)`; `ctl_ret` is what
`epoll_ctl` returned. The result is `none` when `fd` is expired (the null
`fd_ptr` is dereferenced); otherwise it is the world after the call and the
returned pointer (`none` for `nullptr`). -/
def register_event (w : World) (fd : weak_ptr) (cb : Nat) (ctl_ret : Int) :
    Option (World × Option epoll_event) :=
  match lock w.heap fd with
  | none => none
  | some fd_ptr =>
    match deref w.heap fd_ptr with
    | none => none
    | some obj =>
      let ev : epoll_event := { events := obj.get_events, fd := obj.get_fd }
      if ctl_ret = -1 then
        some ({ w with closed := w.closed ++ [w.loop.efd] ++ [w.loop.efd] }, none)
      else
        let data1 :=
          match map_find w.loop.data obj.get_fd with
          | some _ => map_assign w.loop.data obj.get_fd fd
          | none => map_insert w.loop.data obj.get_fd fd
        some ({ w with
                  loop := { w.loop with data := data1
                                        event_list := w.loop.event_list ++ [ev] }
                  heap := set_callback w.heap fd_ptr cb }, some ev)

/-! ## The wait and dispatch loop -/

/-- What invoking a callback did: it returned or it threw, leaving a world. -/
inductive CbResult where
  | returned (w : World)
  | threw (w : World)
deriving DecidableEq

/-- The world a callback invocation left. -/
def CbResult.world : CbResult → World
  | .returned w => w
  | .threw w => w

/-- The semantics of the callbacks: what the callback of a given name does,
invoked with a handle and a readiness mask, in a given world. -/
abbrev Callbacks := Nat → Nat → Nat → World → CbResult

/-- One callback invocation made by the loop: the callback invoked, the
handle and the readiness mask it was given. -/
structure Invocation where
  callback : Nat
  handler : Nat
  events : Nat
deriving DecidableEq

/-- How a stretch of the dispatch loop ended: it ran to its end, a callback
threw, or the behaviour is undefined (a read past the buffer, a null
dereference). -/
inductive Flow where
  | completed (w : World) (log : List Invocation)
  | threw (w : World) (log : List Invocation)
  | undefined (w : World) (log : List Invocation)
deriving DecidableEq

/-- The body of the `for` loop of `listen_loop` for the index `n`. -/
def dispatch_entry (sem : Callbacks) (n : Nat) (w : World) (log : List Invocation) : Flow :=
  match w.loop.events[n]? with
  | none => .undefined w log
  | some ev =>
    let a1 := map_at w.loop.data ev.fd
    let w1 : World := { w with loop := { w.loop with data := a1.1 } }
    if expired w1.heap a1.2 then .completed w1 log
    else
      let a2 := map_at w1.loop.data ev.fd
      let w2 : World := { w1 with loop := { w1.loop with data := a2.1 } }
      match lock w2.heap a2.2 with
      | none => .undefined w2 log
      | some handler =>
        match deref w2.heap handler with
        | none => .undefined w2 log
        | some obj =>
          let log1 := log ++ [{ callback := obj.callback, handler := handler, events := ev.events }]
          match sem obj.callback handler ev.events w2 with
          | .returned w3 => .completed w3 log1
          | .threw w3 => .threw w3 log1

/-- The `for` loop of `listen_loop`, about to test `n < nfds` with
`remaining = nfds - n`. -/
def for_loop (sem : Callbacks) : Nat → Nat → World → List Invocation → Flow
  | 0, _, w, log => .completed w log
  | remaining + 1, n, w, log =>
    match dispatch_entry sem n w log with
    | .completed w1 log1 => for_loop sem remaining (n + 1) w1 log1
    | .threw w1 log1 => .threw w1 log1
    | .undefined w1 log1 => .undefined w1 log1

/-- What one `epoll_wait` call returned: a failure with its `errno`, or a
batch of readiness entries. -/
inductive WaitResult where
  | failed (errno : Nat)
  | ready (batch : List epoll_event)
deriving DecidableEq

/-- The `errno` of an interrupted system call. -/
def EINTR : Nat := 4

/-- The call `epoll_wait (efd, events, max_events, event_check)`: the value
returned and the buffer afterwards, whose first slots hold the batch. -/
def epoll_wait (r : WaitResult) (events : List epoll_event) : Int × List epoll_event :=
  match r with
  | .failed _ => (-1, events)
  | .ready batch => ((batch.length : Int), batch ++ events.drop batch.length)

/-- How `listen_loop` ended: through `break` on the finish flag, through the
`return` after a failed wait, by an exception leaving a callback, or with
undefined behaviour. -/
inductive Exit where
  | stopped
  | wait_failed
  | threw
  | undefined
deriving DecidableEq

/-- The outcome of one pass through the body of `while (1)`. -/
inductive Step where
  | next (w : World) (log : List Invocation)
  | exit (w : World) (log : List Invocation) (e : Exit)
deriving DecidableEq

/-- One pass through the body of `while (1)` in `listen_loop`, where the
wait call answers `r`. -/
def listen_cycle (sem : Callbacks) (r : WaitResult) (w : World) (log : List Invocation) : Step :=
  let res := epoll_wait r w.loop.events
  let nfds := res.1
  let w1 : World := { w with loop := { w.loop with events := res.2 } }
  if nfds = -1 then
    .exit { w1 with closed := w1.closed ++ [w1.loop.efd] } log .wait_failed
  else
    match for_loop sem nfds.toNat 0 w1 log with
    | .completed w2 log2 =>
      if w2.loop.finish_flag then .exit w2 log2 .stopped else .next w2 log2
    | .threw w2 log2 => .exit w2 log2 .threw
    | .undefined w2 log2 => .exit w2 log2 .undefined

/-- A finished run of `listen_loop`: the world and the invocation log it
left, the number of wait calls issued so far, and how it ended. -/
structure Run where
  world : World
  log : List Invocation
  waits : Nat
  exit : Exit
deriving DecidableEq

/-- The loop `while (1)` of `listen_loop`, about to start the wait cycle
number `c`, which the operating system answers with `os c`. The result is
`none` when the loop is still running after `fuel` cycles. -/
def listen_loop_from (sem : Callbacks) (os : Nat → WaitResult) :
    Nat → Nat → World → List Invocation → Option Run
  | 0, _, _, _ => none
  | fuel + 1, c, w, log =>
    match listen_cycle sem (os c) w log with
    | .exit w1 log1 e => some { world := w1, log := log1, waits := c + 1, exit := e }
    | .next w1 log1 => listen_loop_from sem os fuel (c + 1) w1 log1

/-- The method `epoll_handler::listen_loop`. -/
def listen_loop (sem : Callbacks) (os : Nat → WaitResult) (fuel : Nat) (w : World) : Option Run :=
  listen_loop_from sem os fuel 0 w []

/-- The method `epoll_handler::finish`. -/
def finish (w : World) : World :=
  { w with loop := { w.loop with finish_flag := true } }

/-- The world once a wait call has written the batch it returned into the
readiness buffer. -/
def after_wait (w : World) (batch : List epoll_event) : World :=
  { w with loop := { w.loop with events := (epoll_wait (.ready batch) w.loop.events).2 } }

/-- The world a stretch of the dispatch loop left. -/
def Flow.world : Flow → World
  | .completed w _ => w
  | .threw w _ => w
  | .undefined w _ => w

/-! ## Lifetimes -/

/-- A call made on the loop object between construction and destruction. -/
inductive Call where
  | register (fd : weak_ptr) (cb : Nat) (ctl_ret : Int)
  | listen (os : Nat → WaitResult) (fuel : Nat)
  | finish

/-- Performs one call; `none` when the call has no defined result. -/
def run_call (sem : Callbacks) (w : World) : Call → Option World
  | .register fd cb ctl_ret => (register_event w fd cb ctl_ret).map Prod.fst
  | .listen os fuel => (listen_loop sem os fuel w).map Run.world
  | .finish => some (finish w)

/-- Performs a sequence of calls, in order. -/
def run_calls (sem : Callbacks) : World → List Call → Option World
  | w, [] => some w
  | w, call :: rest =>
    match run_call sem w call with
    | some w1 => run_calls sem w1 rest
    | none => none

/-- A lifetime of a loop: construction, a sequence of calls, destruction. -/
def lifetime (sem : Callbacks) (max_events event_check : Int) (alloc_ok : Bool) (efd_ret : Int)
    (heap : Heap) (calls : List Call) : Option World :=
  match epoll_handler.construct max_events event_check alloc_ok efd_ret with
  | .ok l =>
    (run_calls sem { loop := l, heap := heap, closed := [] } calls).map epoll_handler.destroy
  | .error _ => none

/-- The number of `close` calls made on the multiplexing context. -/
def releases (w : World) : Nat := w.closed.count w.loop.efd

/-! ## Assumptions on client code and expected behaviour -/

/-- Every callback returns normally. -/
def Returns (sem : Callbacks) : Prop :=
  ∀ cb h m w, ∃ w1, sem cb h m w = .returned w1

/-- No callback changes the registration table. -/
def KeepsTable (sem : Callbacks) : Prop :=
  ∀ cb h m w, (sem cb h m w).world.loop.data = w.loop.data

/-- No callback writes to the readiness buffer. -/
def KeepsBuffer (sem : Callbacks) : Prop :=
  ∀ cb h m w, (sem cb h m w).world.loop.events = w.loop.events

/-- No callback destroys a handle the registration table refers to, or
re-assigns its callback slot. -/
def KeepsHandles (sem : Callbacks) : Prop :=
  ∀ cb h m w k i, map_find w.loop.data k = some (weak_ptr.ref i) →
    (deref (sem cb h m w).world.heap i).map fd_handler.callback =
      (deref w.heap i).map fd_handler.callback

/-- Every callback returns normally and leaves every member of the loop
object as it was. -/
def KeepsLoop (sem : Callbacks) : Prop :=
  ∀ cb h m w, ∃ w1, sem cb h m w = .returned w1 ∧ w1.loop = w.loop

/-- The invocation the specification expects for one readiness entry: none
when the table has no association for the descriptor number or the handle
referred to is no longer alive; otherwise the stored callback of that handle,
with that handle and the readiness mask of the entry. -/
def expected_invocation (t : Table) (heap : Heap) (e : epoll_event) : Option Invocation :=
  match map_find t e.fd with
  | some (.ref h) =>
    match deref heap h with
    | some obj => some { callback := obj.callback, handler := h, events := e.events }
    | none => none
  | _ => none

/-- The table after `operator[]` has been applied for each key in turn. -/
def ensure_keys : Table → List Int → Table
  | t, [] => t
  | t, k :: ks => ensure_keys (map_at t k).1 ks

/-! ## Sample inputs -/

/-- A loop built with `max_events = 4`, `event_check = 100` and context
descriptor `3`, next to two live handles, for the descriptors `7` and `8`. -/
def sample_world : World :=
  { loop := { finish_flag := false, max_events := 4, event_check := 100,
              events := calloc_events true 4, efd := 3, data := [], event_list := [] }
    heap := [some { fd := 7, events := 1, callback := 0 },
             some { fd := 8, events := 1, callback := 0 }]
    closed := [] }

/-- A loop with three registrations: the descriptors `7` and `8` belong to
the live handles `0` and `1`, whose callbacks are `10` and `11`; the
descriptor `5` belongs to the handle `2`, which has been destroyed. -/
def sample_registered : World :=
  { loop := { finish_flag := false, max_events := 4, event_check := 100,
              events := calloc_events true 4, efd := 3,
              data := [(7, weak_ptr.ref 0), (8, weak_ptr.ref 1), (5, weak_ptr.ref 2)],
              event_list := [{ events := 1, fd := 7 }, { events := 1, fd := 8 },
                             { events := 1, fd := 5 }] }
    heap := [some { fd := 7, events := 1, callback := 10 },
             some { fd := 8, events := 1, callback := 11 }, none]
    closed := [] }

/-- Callbacks that return at once and change nothing. -/
def idle_callbacks : Callbacks := fun _ _ _ w => .returned w

/-- Callbacks of which the one named `10` throws. -/
def failing_callbacks : Callbacks := fun cb _ _ w =>
  if cb = 10 then .threw w else .returned w

/-- A batch naming the descriptor `8`, the unknown descriptor `9`, the
descriptor `5` of the destroyed handle, and the descriptor `7`. -/
def sample_batch : List epoll_event :=
  [{ events := 1, fd := 8 }, { events := 4, fd := 9 }, { events := 1, fd := 5 },
   { events := 1, fd := 7 }]

/-- A readiness entry for the unknown descriptor `9`. -/
def unknown_ready : epoll_event := { events := 4, fd := 9 }

/-- A readiness entry for the descriptor `7`. -/
def first_ready : epoll_event := { events := 1, fd := 7 }

/-- A readiness entry for the descriptor `8`. -/
def second_ready : epoll_event := { events := 1, fd := 8 }

/-! ## The table -/

theorem map_find_append (t : Table) (k k' : Int) (v : weak_ptr) :
    map_find (t ++ [(k, v)]) k' =
      match map_find t k' with
      | some x => some x
      | none => if k = k' then some v else none := by
  induction t with
  | nil => simp [map_find]
  | cons e t ih =>
    obtain ⟨a, b⟩ := e
    by_cases h : a = k'
    · simp [map_find, h]
    · simp [map_find, h, ih]

theorem map_find_store (t : Table) (k k' : Int) (v : weak_ptr) :
    map_find (map_store t k v) k' =
      if k = k' then (map_find t k).map (fun _ => v) else map_find t k' := by
  induction t with
  | nil => simp [map_find, map_store]
  | cons e t ih =>
    obtain ⟨a, b⟩ := e
    by_cases h : a = k
    · subst h
      by_cases h2 : a = k'
      · simp [map_find, map_store, h2]
      · simp [map_find, map_store, h2]
    · by_cases h2 : a = k'
      · subst h2
        have h3 : ¬ k = a := fun e => h e.symm
        simp [map_find, map_store, h, h3]
      · simp [map_find, map_store, h, h2, ih]

theorem map_store_keys (t : Table) (k : Int) (v : weak_ptr) :
    (map_store t k v).map Prod.fst = t.map Prod.fst := by
  induction t with
  | nil => simp [map_store]
  | cons e t ih =>
    obtain ⟨a, b⟩ := e
    by_cases h : a = k
    · simp [map_store, h]
    · simp [map_store, h, ih]

theorem map_count_eq (t : Table) (k : Int) :
    map_count t k = List.count k (t.map Prod.fst) := by
  induction t with
  | nil => simp [map_count]
  | cons e t ih =>
    obtain ⟨a, b⟩ := e
    unfold map_count at ih ⊢
    by_cases h : a = k
    · simp [List.filter_cons, h, ih]
    · simp [List.filter_cons, h, ih, List.count_cons]

theorem map_find_none_iff (t : Table) (k : Int) :
    map_find t k = none ↔ k ∉ t.map Prod.fst := by
  induction t with
  | nil => simp [map_find]
  | cons e t ih =>
    obtain ⟨a, b⟩ := e
    by_cases h : a = k
    · simp [map_find, h]
    · have h2 : ¬ k = a := fun h3 => h h3.symm
      simp [map_find, h, h2, ih]

/-- The table after a successful registration under the key `k`. -/
theorem table_after_registration (t : Table) (k : Int) (fd : weak_ptr)
    (hwf : (t.map Prod.fst).Nodup) :
    ∀ t1 : Table,
      t1 = (match map_find t k with
            | some _ => map_assign t k fd
            | none => map_insert t k fd) →
      map_find t1 k = some fd ∧ map_count t1 k = 1 ∧
      (∀ k1, k1 ≠ k → map_find t1 k1 = map_find t k1) ∧
      (t1.map Prod.fst).Nodup := by
  intro t1 ht1
  cases hf : map_find t k with
  | none =>
    have hnot : k ∉ t.map Prod.fst := (map_find_none_iff t k).1 hf
    have e1 : t1 = t ++ [(k, fd)] := by
      rw [ht1, hf]; simp [map_insert, hf]
    subst e1
    refine ⟨?_, ?_, ?_, ?_⟩
    · rw [map_find_append, hf]; simp
    · rw [map_count_eq]
      simp [List.count_append, List.count_eq_zero_of_not_mem hnot]
    · intro k1 hk1
      have h2 : ¬ k = k1 := fun e => hk1 e.symm
      rw [map_find_append]
      cases map_find t k1 <;> simp [h2]
    · rw [List.map_append, List.nodup_append]
      refine ⟨hwf, by simp, ?_⟩
      intro a ha hb
      simp at hb
      exact hnot (hb ▸ ha)
  | some v =>
    have hin : k ∈ t.map Prod.fst := by
      by_contra hc
      have := (map_find_none_iff t k).2 hc
      rw [hf] at this
      cases this
    have e1 : t1 = map_store t k fd := by
      rw [ht1, hf]; simp [map_assign, map_at, hf]
    subst e1
    refine ⟨?_, ?_, ?_, ?_⟩
    · rw [map_find_store, hf]; simp
    · rw [map_count_eq, map_store_keys]
      exact List.count_eq_one_of_mem hwf hin
    · intro k1 hk1
      have h2 : ¬ k = k1 := fun e => hk1 e.symm
      rw [map_find_store]; simp [h2]
    · rw [map_store_keys]; exact hwf

theorem deref_lt {heap : Heap} {h : Nat} {obj : fd_handler}
    (hobj : deref heap h = some obj) : h < heap.length ∧ heap[h]? = some (some obj) := by
  unfold deref at hobj
  split at hobj
  · rename_i o heq
    have : o = obj := by simpa using hobj
    subst this
    refine ⟨?_, heq⟩
    by_contra hc
    rw [List.getElem?_eq_none (by omega)] at heq
    cases heq
  · cases hobj

theorem deref_set_callback (heap : Heap) (h : Nat) (obj : fd_handler) (cb : Nat)
    (hobj : deref heap h = some obj) :
    deref (set_callback heap h cb) h = some { obj with callback := cb } := by
  have hl := (deref_lt hobj).1
  unfold set_callback
  rw [hobj]
  simp [deref, hl]

theorem lock_ref (heap : Heap) (h : Nat) (obj : fd_handler)
    (hobj : deref heap h = some obj) : lock heap (weak_ptr.ref h) = some h := by
  simp [lock, hobj]

theorem register_event_ok (w : World) (h : Nat) (obj : fd_handler) (cb : Nat) (ctl_ret : Int)
    (hobj : deref w.heap h = some obj) (hok : ctl_ret ≠ -1) :
    register_event w (weak_ptr.ref h) cb ctl_ret =
      some ({ w with
                loop := { w.loop with
                            data := (match map_find w.loop.data obj.fd with
                                     | some _ => map_assign w.loop.data obj.fd (weak_ptr.ref h)
                                     | none => map_insert w.loop.data obj.fd (weak_ptr.ref h))
                            event_list := w.loop.event_list ++ [{ events := obj.events, fd := obj.fd }] }
                heap := set_callback w.heap h cb },
            some { events := obj.events, fd := obj.fd }) := by
  simp [register_event, lock_ref w.heap h obj hobj, hobj, hok, fd_handler.get_fd,
    fd_handler.get_events]

theorem world_eta_events (w : World) :
    ({ w with loop := { w.loop with events := w.loop.events } } : World) = w := by
  cases w; rfl

theorem world_eta_data (w : World) :
    ({ w with loop := { w.loop with data := w.loop.data } } : World) = w := by
  cases w; rfl

/-! ## The dispatch loop -/

theorem map_find_map_at (t : Table) (k1 k : Int) :
    map_find (map_at t k1).1 k =
      match map_find t k with
      | some v => some v
      | none => if k1 = k then some weak_ptr.empty else none := by
  unfold map_at
  cases h1 : map_find t k1 with
  | some v1 =>
    cases h : map_find t k with
    | some v => simp [h]
    | none =>
      have hne : ¬ k1 = k := by
        intro e; rw [e, h] at h1; cases h1
      simp [h, hne]
  | none =>
    simp only []
    rw [map_find_append]

theorem map_at_present (t : Table) (k : Int) (v : weak_ptr) (h : map_find t k = some v) :
    map_at t k = (t, v) := by
  simp [map_at, h]

theorem map_at_snd (t : Table) (k : Int) :
    (map_at t k).2 = (map_find t k).getD weak_ptr.empty := by
  unfold map_at
  cases map_find t k <;> rfl

theorem expected_none_of_expired (t : Table) (heap : Heap) (e : epoll_event)
    (h : expired heap (map_at t e.fd).2 = true) : expected_invocation t heap e = none := by
  rw [map_at_snd] at h
  unfold expected_invocation
  cases hf : map_find t e.fd with
  | none => rfl
  | some p =>
    cases p with
    | empty => rfl
    | ref i =>
      rw [hf] at h
      simp only [Option.getD, expired, Option.isNone_iff_eq_none] at h
      simp [h]

theorem not_expired_elim (t : Table) (heap : Heap) (k : Int)
    (h : ¬ expired heap (map_at t k).2 = true) :
    ∃ i obj, map_find t k = some (weak_ptr.ref i) ∧ deref heap i = some obj := by
  rw [map_at_snd] at h
  cases hf : map_find t k with
  | none => rw [hf] at h; exact absurd rfl h
  | some p =>
    cases p with
    | empty => rw [hf] at h; exact absurd rfl h
    | ref i =>
      rw [hf] at h
      cases hd : deref heap i with
      | none => exact absurd (by simp [expired, hd]) h
      | some obj => exact ⟨i, obj, rfl, hd⟩

/-- An entry the specification skips: `operator[]` is applied and nothing
is invoked. -/
theorem dispatch_entry_skip (sem : Callbacks) (n : Nat) (w : World) (log : List Invocation)
    (e : epoll_event) (hn : w.loop.events[n]? = some e)
    (hexp : expired w.heap (map_at w.loop.data e.fd).2 = true) :
    dispatch_entry sem n w log =
      .completed { w with loop := { w.loop with data := (map_at w.loop.data e.fd).1 } } log := by
  unfold dispatch_entry
  rw [hn]
  simp only []
  rw [if_pos hexp]

/-- An entry that resolves to a live handle: its stored callback is invoked
in the unchanged world. -/
theorem dispatch_entry_call (sem : Callbacks) (n : Nat) (w : World) (log : List Invocation)
    (e : epoll_event) (i : Nat) (obj : fd_handler) (hn : w.loop.events[n]? = some e)
    (hf : map_find w.loop.data e.fd = some (weak_ptr.ref i)) (hd : deref w.heap i = some obj) :
    dispatch_entry sem n w log =
      match sem obj.callback i e.events w with
      | .returned w3 =>
        .completed w3 (log ++ [{ callback := obj.callback, handler := i, events := e.events }])
      | .threw w3 =>
        .threw w3 (log ++ [{ callback := obj.callback, handler := i, events := e.events }]) := by
  have hat : map_at w.loop.data e.fd = (w.loop.data, weak_ptr.ref i) := map_at_present _ _ _ hf
  have hne : ¬ expired w.heap (weak_ptr.ref i) = true := by simp [expired, hd]
  unfold dispatch_entry
  rw [hn]
  simp only [hat, world_eta_data, if_neg hne, lock_ref w.heap i obj hd, hd]

theorem for_loop_add (sem : Callbacks) (a b : Nat) :
    ∀ (n : Nat) (w : World) (log : List Invocation),
      for_loop sem (a + b) n w log =
        match for_loop sem a n w log with
        | .completed w1 log1 => for_loop sem b (n + a) w1 log1
        | .threw w1 log1 => .threw w1 log1
        | .undefined w1 log1 => .undefined w1 log1 := by
  induction a with
  | zero => intro n w log; simp [for_loop]
  | succ a ih =>
    intro n w log
    rw [Nat.add_right_comm a 1 b]
    simp only [for_loop]
    cases hd : dispatch_entry sem n w log with
    | completed w1 log1 =>
      simp only []
      rw [ih (n + 1) w1 log1, Nat.add_assoc n 1 a, Nat.add_comm 1 a]
    | threw w1 log1 => rfl
    | undefined w1 log1 => rfl

theorem expected_map_at (t : Table) (k : Int) (heap : Heap) (e : epoll_event) :
    expected_invocation (map_at t k).1 heap e = expected_invocation t heap e := by
  unfold expected_invocation
  rw [map_find_map_at]
  cases map_find t e.fd with
  | some v => rfl
  | none =>
    by_cases hk : k = e.fd
    · simp [hk]
    · simp [hk]

theorem expected_congr (t : Table) (heap heap1 : Heap) (e : epoll_event)
    (hv : ∀ k i, map_find t k = some (weak_ptr.ref i) →
      (deref heap1 i).map fd_handler.callback = (deref heap i).map fd_handler.callback) :
    expected_invocation t heap1 e = expected_invocation t heap e := by
  unfold expected_invocation
  cases hf : map_find t e.fd with
  | none => rfl
  | some p =>
    cases p with
    | empty => rfl
    | ref i =>
      have h := hv e.fd i hf
      cases h1 : deref heap1 i <;> cases h2 : deref heap i <;> simp [h1, h2] at h ⊢
      exact h

theorem expected_of_live (t : Table) (heap : Heap) (e : epoll_event) (i : Nat) (obj : fd_handler)
    (hf : map_find t e.fd = some (weak_ptr.ref i)) (hd : deref heap i = some obj) :
    expected_invocation t heap e =
      some { callback := obj.callback, handler := i, events := e.events } := by
  simp [expected_invocation, hf, hd]

/-- The dispatch loop under callbacks that return and leave the table and
the buffer alone: it runs to its end, the table has been completed with the
descriptor numbers met, and, when the callbacks also leave the handles
alone, the invocations are the expected ones, in order. -/
theorem for_loop_quiet (sem : Callbacks) (hret : Returns sem) (htab : KeepsTable sem)
    (hbuf : KeepsBuffer sem) :
    ∀ (es : List epoll_event) (n : Nat) (w : World) (log : List Invocation),
      (∀ i, i < es.length → w.loop.events[n + i]? = es[i]?) →
      ∃ w1 log1, for_loop sem es.length n w log = .completed w1 log1 ∧
        w1.loop.events = w.loop.events ∧
        w1.loop.data = ensure_keys w.loop.data (es.map epoll_event.fd) ∧
        (KeepsHandles sem →
          log1 = log ++ es.filterMap (expected_invocation w.loop.data w.heap) ∧
          ∀ k i, map_find w.loop.data k = some (weak_ptr.ref i) →
            (deref w1.heap i).map fd_handler.callback =
              (deref w.heap i).map fd_handler.callback) := by
  intro es
  induction es with
  | nil =>
    intro n w log _
    exact ⟨w, log, rfl, rfl, rfl, fun _ => ⟨by simp, fun _ _ _ => rfl⟩⟩
  | cons e rest ih =>
    intro n w log hb
    have hn : w.loop.events[n]? = some e := by
      have h0 := hb 0 (by simp)
      simpa using h0
    have hb1 : ∀ i, i < rest.length → w.loop.events[n + 1 + i]? = rest[i]? := by
      intro i hi
      have h1 := hb (i + 1) (by simp; omega)
      rw [List.getElem?_cons_succ] at h1
      rw [← h1]
      congr 1
      omega
    simp only [List.length_cons, for_loop]
    by_cases hexp : expired w.heap (map_at w.loop.data e.fd).2 = true
    · rw [dispatch_entry_skip sem n w log e hn hexp]
      simp only []
      obtain ⟨w1, log1, h1, h2, h3, h4⟩ :=
        ih (n + 1) { w with loop := { w.loop with data := (map_at w.loop.data e.fd).1 } } log hb1
      refine ⟨w1, log1, h1, h2, h3, fun hh => ?_⟩
      obtain ⟨h5, h6⟩ := h4 hh
      refine ⟨?_, fun k i hk => h6 k i (by simp only []; rw [map_find_map_at, hk])⟩
      rw [h5, List.filterMap_cons, expected_none_of_expired _ _ _ hexp]
      simp only []
      congr 1
      apply List.filterMap_congr
      intro x _
      exact expected_map_at _ _ _ _
    · obtain ⟨i, obj, hf, hd⟩ := not_expired_elim _ _ _ hexp
      rw [dispatch_entry_call sem n w log e i obj hn hf hd]
      obtain ⟨w3, hw3⟩ := hret obj.callback i e.events w
      have ht3 : w3.loop.data = w.loop.data := by
        have := htab obj.callback i e.events w
        rw [hw3] at this; exact this
      have hb3 : w3.loop.events = w.loop.events := by
        have := hbuf obj.callback i e.events w
        rw [hw3] at this; exact this
      rw [hw3]
      simp only []
      obtain ⟨w1, log1, h1, h2, h3, h4⟩ :=
        ih (n + 1) w3 (log ++ [{ callback := obj.callback, handler := i, events := e.events }])
          (by rw [hb3]; exact hb1)
      refine ⟨w1, log1, h1, h2.trans hb3, ?_, fun hh => ?_⟩
      · rw [h3, ht3]
        simp only [List.map_cons, ensure_keys, map_at_present _ _ _ hf]
      · obtain ⟨h5, h6⟩ := h4 hh
        have hv3 : ∀ k j, map_find w.loop.data k = some (weak_ptr.ref j) →
            (deref w3.heap j).map fd_handler.callback =
              (deref w.heap j).map fd_handler.callback := by
          intro k j hk
          have := hh obj.callback i e.events w k j hk
          rw [hw3] at this; exact this
        refine ⟨?_, fun k j hk => (h6 k j (by rw [ht3]; exact hk)).trans (hv3 k j hk)⟩
        rw [h5, List.filterMap_cons, expected_of_live _ _ _ i obj hf hd, ht3]
        simp only [List.append_assoc, List.singleton_append]
        congr 2
        apply List.filterMap_congr
        intro x _
        exact expected_congr _ _ _ _ hv3

theorem listen_cycle_failed (sem : Callbacks) (errno : Nat) (w : World) (log : List Invocation) :
    listen_cycle sem (.failed errno) w log =
      .exit { w with closed := w.closed ++ [w.loop.efd] } log .wait_failed := by
  simp [listen_cycle, epoll_wait, world_eta_events]

theorem listen_cycle_ready (sem : Callbacks) (b : List epoll_event) (w : World)
    (log : List Invocation) :
    listen_cycle sem (.ready b) w log =
      match for_loop sem b.length 0 (after_wait w b) log with
      | .completed w2 log2 =>
        if w2.loop.finish_flag then .exit w2 log2 .stopped else .next w2 log2
      | .threw w2 log2 => .exit w2 log2 .threw
      | .undefined w2 log2 => .exit w2 log2 .undefined := by
  have hne : ¬ ((b.length : Int) = -1) := by omega
  simp only [listen_cycle, epoll_wait, after_wait, if_neg hne, Int.toNat_ofNat]

theorem after_wait_buffer (w : World) (b : List epoll_event) :
    ∀ i, i < b.length → (after_wait w b).loop.events[0 + i]? = b[i]? := by
  intro i hi
  simp only [after_wait, epoll_wait, Nat.zero_add]
  rw [List.getElem?_append_left hi]

theorem ensure_keys_some (ks : List Int) :
    ∀ (t : Table) (k : Int) (v : weak_ptr), map_find t k = some v →
      map_find (ensure_keys t ks) k = some v := by
  induction ks with
  | nil => intro t k v h; exact h
  | cons k1 ks ih =>
    intro t k v h
    apply ih
    rw [map_find_map_at, h]

theorem ensure_keys_none (ks : List Int) :
    ∀ (t : Table) (k : Int), map_find t k = none →
      map_find (ensure_keys t ks) k = if k ∈ ks then some weak_ptr.empty else none := by
  induction ks with
  | nil => intro t k h; simpa [ensure_keys] using h
  | cons k1 ks ih =>
    intro t k h
    by_cases hk : k1 = k
    · have h1 : map_find (map_at t k1).1 k = some weak_ptr.empty := by
        rw [map_find_map_at, h]; simp [hk]
      simp only [ensure_keys]
      rw [ensure_keys_some ks _ k _ h1]
      simp [hk]
    · have h1 : map_find (map_at t k1).1 k = none := by
        rw [map_find_map_at, h]; simp [hk]
      have hk2 : ¬ k = k1 := fun e => hk e.symm
      simp only [ensure_keys]
      rw [ih _ k h1]
      simp [hk2]

/-- C1, as amended: when the add-interest call fails (`epoll_ctl` returns
`-1`) for a live handle, `register_event` returns the null pointer and leaves
the loop object (registration table, event list, stop flag, buffer) and every
handle, the callback slots included, unchanged; but it closes the
multiplexing context: the only effect is that `close` is called on `efd`. -/
theorem register_event_failure (w : World) (h : Nat) (obj : fd_handler) (cb : Nat)
    (hobj : deref w.heap h = some obj) :
    ∃ w1, register_event w (weak_ptr.ref h) cb (-1) = some (w1, none) ∧
      w1.loop = w.loop ∧ w1.heap = w.heap ∧
      ∃ n, 0 < n ∧ w1.closed = w.closed ++ List.replicate n w.loop.efd := by
  refine ⟨{ w with closed := w.closed ++ [w.loop.efd] ++ [w.loop.efd] }, ?_, rfl, rfl, 2, by decide, ?_⟩
  · simp [register_event, lock_ref w.heap h obj hobj, hobj]
  · simp [List.replicate]

/-- C1, witness: a failed registration of the live handle `0` of the sample
world. -/
theorem register_event_failure_witness :
    deref sample_world.heap 0 = some { fd := 7, events := 1, callback := 0 } ∧
    ∃ w1, register_event sample_world (weak_ptr.ref 0) 5 (-1) = some (w1, none) ∧
      w1.loop = sample_world.loop ∧ w1.heap = sample_world.heap ∧
      ∃ n, 0 < n ∧ w1.closed = sample_world.closed ++ List.replicate n sample_world.loop.efd :=
  ⟨by decide, register_event_failure sample_world 0 { fd := 7, events := 1, callback := 0 } 5
    (by decide)⟩

/-- C1, counterexample: in the sample world the multiplexing context `3` is
open; after a failed registration it has been closed, so the world is not as
before the call. -/
theorem register_event_failure_closes_context :
    sample_world.loop.efd ∉ sample_world.closed ∧
    ∃ w1, register_event sample_world (weak_ptr.ref 0) 5 (-1) = some (w1, none) ∧
      sample_world.loop.efd ∈ w1.closed ∧ w1 ≠ sample_world := by
  refine ⟨by decide, _, rfl, by decide, by decide⟩

/-- C2: a successful registration (`epoll_ctl` does not return `-1`) of a
live handle `h` with descriptor number `k = obj.fd` returns the event made of
the number and the interest mask of `h`, leaves `h` with the callback `cb`,
and leaves a table that maps `k` to the reference to `h`, has exactly one
entry for `k`, and maps every other key as before (the table before the call
has one entry per key, as every `std::map` has). A second successful
registration under the same number then again leaves exactly one entry for
`k`, the one of the second call, with the second callback installed. -/
theorem register_event_success (w : World) (h : Nat) (obj : fd_handler) (cb : Nat)
    (ctl_ret : Int) (hobj : deref w.heap h = some obj)
    (hwf : (w.loop.data.map Prod.fst).Nodup) (hok : ctl_ret ≠ -1) :
    ∃ w1 ev, register_event w (weak_ptr.ref h) cb ctl_ret = some (w1, some ev) ∧
      map_find w1.loop.data obj.fd = some (weak_ptr.ref h) ∧
      map_count w1.loop.data obj.fd = 1 ∧
      (∀ k, k ≠ obj.fd → map_find w1.loop.data k = map_find w.loop.data k) ∧
      (deref w1.heap h).map fd_handler.callback = some cb ∧
      ev.fd = obj.fd ∧ ev.events = obj.events ∧
      (∀ (h2 : Nat) (obj2 : fd_handler) (cb2 : Nat) (ctl2 : Int),
        deref w1.heap h2 = some obj2 → obj2.fd = obj.fd → ctl2 ≠ -1 →
        ∃ w2 ev2, register_event w1 (weak_ptr.ref h2) cb2 ctl2 = some (w2, some ev2) ∧
          map_find w2.loop.data obj.fd = some (weak_ptr.ref h2) ∧
          map_count w2.loop.data obj.fd = 1 ∧
          (deref w2.heap h2).map fd_handler.callback = some cb2) := by
  have t1 := table_after_registration w.loop.data obj.fd (weak_ptr.ref h) hwf _ rfl
  refine ⟨_, _, register_event_ok w h obj cb ctl_ret hobj hok, t1.1, t1.2.1, t1.2.2.1, ?_,
    rfl, rfl, ?_⟩
  · simp [deref_set_callback w.heap h obj cb hobj]
  · intro h2 obj2 cb2 ctl2 hobj2 hfd hok2
    have t2 := table_after_registration _ obj2.fd (weak_ptr.ref h2) t1.2.2.2 _ rfl
    refine ⟨_, _, register_event_ok _ h2 obj2 cb2 ctl2 hobj2 hok2, ?_, ?_, ?_⟩
    · have e := t2.1
      rw [hfd] at e ⊢
      exact e
    · have e := t2.2.1
      rw [hfd] at e ⊢
      exact e
    · simp [deref_set_callback _ h2 obj2 cb2 hobj2]

/-- C2, witness: the live handle `0` of the sample world, registered with the
callback `5`. -/
theorem register_event_success_witness :
    (deref sample_world.heap 0 = some { fd := 7, events := 1, callback := 0 } ∧
      (sample_world.loop.data.map Prod.fst).Nodup ∧ (0 : Int) ≠ -1) ∧
    ∃ w1 ev, register_event sample_world (weak_ptr.ref 0) 5 0 = some (w1, some ev) ∧
      map_find w1.loop.data 7 = some (weak_ptr.ref 0) ∧ map_count w1.loop.data 7 = 1 := by
  refine ⟨⟨by decide, by decide, by decide⟩, ?_⟩
  obtain ⟨w1, ev, h1, h2, h3, _⟩ :=
    register_event_success sample_world 0 { fd := 7, events := 1, callback := 0 } 5 0
      (by decide) (by decide) (by decide)
  exact ⟨w1, ev, h1, h2, h3⟩

/-! ## Construction: the claims -/

/-- C6, as amended: construction never fails. For every `int` value of
`max_events`, every `event_check`, whether or not `calloc` obtained the
memory and whatever `epoll_create1` returned (the failure value `-1`
included), the constructor produces a loop object with the stop flag unset,
the two parameters stored, `efd` holding the value returned and an empty
table and event list. For `max_events > 0` with a successful allocation the
readiness buffer has capacity exactly `max_events`; for `max_events ≤ 0`,
and when the allocation fails, the object has a buffer without any slot. -/
theorem construct_never_fails (max_events event_check : Int) (alloc_ok : Bool) (efd_ret : Int)
    (hlo : -(2 ^ 31) ≤ max_events) (hhi : max_events < 2 ^ 31) :
    ∃ l, epoll_handler.construct max_events event_check alloc_ok efd_ret = .ok l ∧
      l.finish_flag = false ∧ l.max_events = max_events ∧ l.event_check = event_check ∧
      l.efd = efd_ret ∧ l.data = [] ∧ l.event_list = [] ∧
      (0 < max_events → alloc_ok = true → (l.events.length : Int) = max_events) ∧
      (max_events ≤ 0 → l.events.length = 0) ∧
      (alloc_ok = false → l.events.length = 0) := by
  refine ⟨_, rfl, rfl, rfl, rfl, rfl, rfl, rfl, ?_, ?_, ?_⟩
  · intro hpos hok
    have e1 : max_events % ((2 ^ 64 : Nat) : Int) = max_events := by
      apply Int.emod_eq_of_lt <;> norm_num <;> omega
    simp only [calloc_events, SIZE_MAX_plus_one, sizeof_epoll_event, e1]
    have e2 : max_events.toNat * 12 < 2 ^ 64 ∧ alloc_ok = true := ⟨by omega, hok⟩
    rw [if_pos e2, List.length_replicate]
    omega
  · intro hneg
    simp only [calloc_events, SIZE_MAX_plus_one, sizeof_epoll_event]
    split
    · rename_i hlt
      rw [List.length_replicate]
      have e3 : (2 ^ 64 : Nat) = 18446744073709551616 := by norm_num
      have hlt1 := hlt.1
      rw [e3] at hlt1 ⊢
      push_cast at hlt1 ⊢
      omega
    · rfl
  · intro hfail
    simp [calloc_events, hfail]

/-- C6, witness: construction with `max_events = 10` and a successful
allocation yields the ten zeroed slots. -/
theorem construct_never_fails_witness :
    (-(2 ^ 31) ≤ (10 : Int) ∧ (10 : Int) < 2 ^ 31) ∧
    epoll_handler.construct 10 100 true 3 =
      .ok { finish_flag := false, max_events := 10, event_check := 100,
            events := List.replicate 10 { events := 0, fd := 0 }, efd := 3,
            data := [], event_list := [] } ∧
    ∃ l, epoll_handler.construct 10 100 true 3 = .ok l ∧ (l.events.length : Int) = 10 := by
  refine ⟨⟨by decide, by decide⟩, rfl, ?_⟩
  obtain ⟨l, h1, _, _, _, _, _, _, h8, _⟩ :=
    construct_never_fails 10 100 true 3 (by decide) (by decide)
  exact ⟨l, h1, h8 (by decide) rfl⟩

/-- C6, counterexample: construction with `max_events = 0`, with
`max_events = -5`, and with a failed `epoll_create1`, each produces a loop
object instead of an initialization error; and construction with the
positive `max_events = 2147483647` whose allocation fails produces a loop
object without any slot. -/
theorem construct_accepts_invalid_input :
    (∃ l, epoll_handler.construct 0 100 true 3 = .ok l ∧ l.max_events = 0) ∧
    (∃ l, epoll_handler.construct (-5) 100 true 3 = .ok l ∧ l.max_events = -5) ∧
    (∃ l, epoll_handler.construct 10 100 true (-1) = .ok l ∧ l.efd = -1) ∧
    (∃ l, epoll_handler.construct 2147483647 100 false 3 = .ok l ∧ l.events.length = 0) :=
  ⟨⟨_, rfl, rfl⟩, ⟨_, rfl, rfl⟩, ⟨_, rfl, rfl⟩, ⟨_, rfl, by decide⟩⟩

/-! ## The wait and dispatch loop: the claims -/

theorem idle_keeps_loop : KeepsLoop idle_callbacks := fun _ _ _ w => ⟨w, rfl, rfl⟩

/-- C10, as amended: with callbacks that return normally and do not touch
the loop, dispatching a batch never removes a key of the registration table and never changes the
reference stored under a key that was present (entries of destroyed handles
stay); a descriptor number of the batch that had no key gets one, with an
empty reference; and no other key appears. -/
theorem dispatch_table_effect (sem : Callbacks) (b : List epoll_event) (w : World)
    (log : List Invocation) (hkl : KeepsLoop sem) :
    ∃ w1 log1,
      (listen_cycle sem (.ready b) w log = .next w1 log1 ∨
        listen_cycle sem (.ready b) w log = .exit w1 log1 .stopped) ∧
      (∀ k v, map_find w.loop.data k = some v → map_find w1.loop.data k = some v) ∧
      (∀ k, map_find w.loop.data k = none → k ∈ b.map epoll_event.fd →
        map_find w1.loop.data k = some weak_ptr.empty) ∧
      (∀ k, map_find w.loop.data k = none → k ∉ b.map epoll_event.fd →
        map_find w1.loop.data k = none) := by
  have hret : Returns sem := fun cb h m w0 => by
    obtain ⟨w1, h1, _⟩ := hkl cb h m w0
    exact ⟨w1, h1⟩
  have htab : KeepsTable sem := fun cb h m w0 => by
    obtain ⟨w1, h1, h2⟩ := hkl cb h m w0
    rw [h1]; exact congrArg epoll_handler.data h2
  have hbuf : KeepsBuffer sem := fun cb h m w0 => by
    obtain ⟨w1, h1, h2⟩ := hkl cb h m w0
    rw [h1]; exact congrArg epoll_handler.events h2
  obtain ⟨w1, log1, h1, _, h3, _⟩ :=
    for_loop_quiet sem hret htab hbuf b 0 (after_wait w b) log (after_wait_buffer w b)
  have h3a : w1.loop.data = ensure_keys w.loop.data (b.map epoll_event.fd) := h3
  refine ⟨w1, log1, ?_, ?_, ?_, ?_⟩
  · rw [listen_cycle_ready, h1]
    by_cases hf : w1.loop.finish_flag = true
    · right; simp [hf]
    · left; simp [hf]
  · intro k v hk
    rw [h3a]; exact ensure_keys_some _ _ _ _ hk
  · intro k hk hin
    rw [h3a, ensure_keys_none _ _ _ hk, if_pos hin]
  · intro k hk hout
    rw [h3a, ensure_keys_none _ _ _ hk, if_neg hout]

/-- C10, witness: after the sample batch the key `5` of the destroyed handle
is still there and the unknown descriptor `9` has got a key with an empty
reference. -/
theorem dispatch_table_effect_witness :
    KeepsLoop idle_callbacks ∧
    (∃ w1 log1,
      listen_cycle idle_callbacks (.ready sample_batch) sample_registered [] = .next w1 log1 ∧
      w1.loop.data = [(7, weak_ptr.ref 0), (8, weak_ptr.ref 1), (5, weak_ptr.ref 2),
                      (9, weak_ptr.empty)]) ∧
    ∃ w1 log1,
      (listen_cycle idle_callbacks (.ready sample_batch) sample_registered [] = .next w1 log1 ∨
        listen_cycle idle_callbacks (.ready sample_batch) sample_registered [] =
          .exit w1 log1 .stopped) ∧
      map_find w1.loop.data 5 = some (weak_ptr.ref 2) ∧
      map_find w1.loop.data 9 = some weak_ptr.empty := by
  refine ⟨idle_keeps_loop, ⟨_, _, rfl, by decide⟩, ?_⟩
  obtain ⟨w1, log1, h1, h2, h3, _⟩ :=
    dispatch_table_effect idle_callbacks sample_batch sample_registered [] idle_keeps_loop
  exact ⟨w1, log1, h1, h2 5 _ (by decide), h3 9 (by decide) (by decide)⟩

/-- C10, counterexample: the batch names the registered descriptor `7` and
the unknown descriptor `9`. The callback of `7` leaves every member of the
loop as it was, but throws: the dispatch ends there and the table never gets
a key for `9`. -/
theorem dispatch_table_misses_key :
    (∀ cb h m w, (failing_callbacks cb h m w).world.loop = w.loop) ∧
    map_find sample_registered.loop.data 9 = none ∧
    (9 : Int) ∈ [first_ready, unknown_ready].map epoll_event.fd ∧
    ∃ w1 log1, listen_cycle failing_callbacks (.ready [first_ready, unknown_ready])
        sample_registered [] = .exit w1 log1 .threw ∧
      map_find w1.loop.data 9 = none := by
  refine ⟨?_, by decide, by decide, _, _, rfl, by decide⟩
  intro cb h m w
  unfold failing_callbacks
  split <;> rfl

/-- C8: when the wait call of a cycle fails with an error other than the
interrupted one, whatever the stop flag, `listen_loop` invokes no callback
for that cycle (the log is as it was), closes the multiplexing context once
(the only change to the world) and returns without another wait call. -/
theorem wait_failure_is_fatal (sem : Callbacks) (os : Nat → WaitResult) (fuel c : Nat)
    (w : World) (log : List Invocation) (errno : Nat)
    (hwait : os c = .failed errno) (_hne : errno ≠ EINTR) :
    listen_loop_from sem os (fuel + 1) c w log =
      some { world := { w with closed := w.closed ++ [w.loop.efd] }
             log := log, waits := c + 1, exit := .wait_failed } := by
  simp only [listen_loop_from, hwait, listen_cycle_failed]

/-- C8, witness: the first wait call fails with the error number `9`. -/
theorem wait_failure_is_fatal_witness :
    ((fun _ => WaitResult.failed 9 : Nat → WaitResult) 0 = .failed 9 ∧ 9 ≠ EINTR) ∧
    listen_loop_from idle_callbacks (fun _ => .failed 9) (4 + 1) 0 sample_registered [] =
      some { world := { sample_registered with
                          closed := sample_registered.closed ++ [sample_registered.loop.efd] }
             log := [], waits := 0 + 1, exit := .wait_failed } :=
  ⟨⟨rfl, by decide⟩,
    wait_failure_is_fatal idle_callbacks (fun _ => .failed 9) 4 0 sample_registered [] 9 rfl
      (by decide)⟩

/-- C9, as amended: a wait call that fails with the interrupted error is
treated as every other failure: `listen_loop` invokes no callback, closes
the multiplexing context once and returns without another wait call. -/
theorem interrupted_wait_is_fatal (sem : Callbacks) (os : Nat → WaitResult) (fuel c : Nat)
    (w : World) (log : List Invocation) (hwait : os c = .failed EINTR) :
    listen_loop_from sem os (fuel + 1) c w log =
      some { world := { w with closed := w.closed ++ [w.loop.efd] }
             log := log, waits := c + 1, exit := .wait_failed } := by
  simp only [listen_loop_from, hwait, listen_cycle_failed]

/-- C9, witness: the first wait call is interrupted. -/
theorem interrupted_wait_is_fatal_witness :
    (fun _ => WaitResult.failed EINTR : Nat → WaitResult) 0 = .failed EINTR ∧
    listen_loop_from idle_callbacks (fun _ => .failed EINTR) (4 + 1) 0 sample_registered [] =
      some { world := { sample_registered with
                          closed := sample_registered.closed ++ [sample_registered.loop.efd] }
             log := [], waits := 0 + 1, exit := .wait_failed } :=
  ⟨rfl, interrupted_wait_is_fatal idle_callbacks (fun _ => .failed EINTR) 4 0
    sample_registered [] rfl⟩

/-- C9, counterexample: with the stop flag unset and fuel for five cycles,
an interrupted first wait call makes `listen_loop` return after that single
wait call, the multiplexing context `3` closed. -/
theorem interrupted_wait_closes_context :
    sample_registered.loop.finish_flag = false ∧
    sample_registered.loop.efd ∉ sample_registered.closed ∧
    ∃ r, listen_loop idle_callbacks (fun _ => .failed EINTR) 5 sample_registered = some r ∧
      r.exit = .wait_failed ∧ r.waits = 1 ∧ r.world.loop.efd ∈ r.world.closed := by
  refine ⟨rfl, by decide, _, rfl, rfl, rfl, by decide⟩

/-- C5, as amended: a callback that fails terminates `listen_loop`. When
the entries before an entry `e` of the batch have been dispatched, and `e`
resolves to a live handle whose stored callback throws, `listen_loop` ends
there with the exception: the log ends with that invocation, no callback of
a later entry is invoked and no further wait call is issued. -/
theorem callback_failure_terminates (sem : Callbacks) (os : Nat → WaitResult) (fuel c : Nat)
    (w : World) (log : List Invocation) (before after : List epoll_event) (e : epoll_event)
    (w1 w2 : World) (log1 : List Invocation) (h : Nat) (obj : fd_handler)
    (hwait : os c = .ready (before ++ e :: after))
    (hbefore : for_loop sem before.length 0 (after_wait w (before ++ e :: after)) log =
      .completed w1 log1)
    (hbuf : w1.loop.events = (after_wait w (before ++ e :: after)).loop.events)
    (hfind : map_find w1.loop.data e.fd = some (weak_ptr.ref h))
    (hlive : deref w1.heap h = some obj)
    (hthrow : sem obj.callback h e.events w1 = .threw w2) :
    listen_loop_from sem os (fuel + 1) c w log =
      some { world := w2
             log := log1 ++ [{ callback := obj.callback, handler := h, events := e.events }]
             waits := c + 1, exit := .threw } := by
  have hn : w1.loop.events[before.length]? = some e := by
    rw [hbuf]
    have := after_wait_buffer w (before ++ e :: after) before.length (by simp)
    rw [Nat.zero_add] at this
    rw [this, List.getElem?_append_right (Nat.le_refl _)]
    simp
  have hlen : (before ++ e :: after).length = before.length + (after.length + 1) := by simp
  simp only [listen_loop_from, hwait, listen_cycle_ready]
  rw [hlen, for_loop_add, hbefore]
  simp only [for_loop, Nat.zero_add]
  rw [dispatch_entry_call sem before.length w1 log1 e h obj hn hfind hlive, hthrow]

/-- C5, witness: the callback of the first entry of a batch of two throws. -/
theorem callback_failure_terminates_witness :
    (map_find (after_wait sample_registered ([] ++ first_ready :: [second_ready])).loop.data
        first_ready.fd = some (weak_ptr.ref 0) ∧
      deref (after_wait sample_registered ([] ++ first_ready :: [second_ready])).heap 0 =
        some { fd := 7, events := 1, callback := 10 }) ∧
    listen_loop_from failing_callbacks (fun _ => .ready ([] ++ first_ready :: [second_ready]))
        (4 + 1) 0 sample_registered [] =
      some { world := after_wait sample_registered ([] ++ first_ready :: [second_ready])
             log := [] ++ [{ callback := 10, handler := 0, events := first_ready.events }]
             waits := 0 + 1, exit := .threw } :=
  ⟨⟨by decide, by decide⟩,
    callback_failure_terminates failing_callbacks
      (fun _ => .ready ([] ++ first_ready :: [second_ready])) 4 0
      sample_registered [] [] [second_ready] first_ready
      (after_wait sample_registered ([] ++ first_ready :: [second_ready]))
      (after_wait sample_registered ([] ++ first_ready :: [second_ready])) []
      0 { fd := 7, events := 1, callback := 10 } rfl rfl rfl (by decide) (by decide) rfl⟩

/-- C5, counterexample: the batch names the descriptors `7` and `8`, both
with a live handle; the callback of `7` throws. With the stop flag unset and
fuel for five cycles, `listen_loop` ends with the exception after one wait
call, and the callback of `8` has not been invoked. -/
theorem callback_failure_propagates :
    expected_invocation sample_registered.loop.data sample_registered.heap second_ready =
      some { callback := 11, handler := 1, events := 1 } ∧
    sample_registered.loop.finish_flag = false ∧
    ∃ r, listen_loop failing_callbacks (fun _ => .ready [first_ready, second_ready]) 5
        sample_registered =
        some r ∧
      r.exit = .threw ∧ r.waits = 1 ∧ r.log = [{ callback := 10, handler := 0, events := 1 }] ∧
      r.world.loop.finish_flag = false := by
  refine ⟨by decide, rfl, _, rfl, rfl, rfl, rfl, rfl⟩

/-- C7, evaluation: a lifetime in which `finish` is called and `listen_loop`
returns through the stop flag never closes the multiplexing context; a
lifetime with one failed registration closes it twice; only a lifetime that
ends through a failed wait closes it once. -/
theorem context_release_counts :
    (lifetime idle_callbacks 10 100 true 3 [] [.finish, .listen (fun _ => .ready []) 1]).map
      releases = some 0 ∧
    (lifetime idle_callbacks 10 100 true 3 [some { fd := 7, events := 1, callback := 0 }]
      [.register (weak_ptr.ref 0) 5 (-1)]).map releases = some 2 ∧
    (lifetime idle_callbacks 10 100 true 3 [] [.listen (fun _ => .failed 9) 1]).map releases
      = some 1 := by
  refine ⟨by decide, by decide, by decide⟩

end EpollHandler
